import Mathlib

/-!
Verification of the SAFECode runtime memory-safety engine.

This development shallowly embeds the runtime checking primitives of the
pool/splay engine (PoolAllocatorBitMask.cpp) and the baggy-bounds engine
(BaggyBoundsCheck.cpp) and proves the testable properties stated in the
specification against them.

Pointers and machine words are modelled as `Nat`; 32-bit (pool runtime,
`unsigned`) and 64-bit (baggy runtime, `uintptr_t`) masking is made explicit
where the C code does bitwise arithmetic.  Fallible primitives return an
explicit outcome value instead of calling `abort()` / printing a report.

Code of the repository that is not part of the source tree (the `adl_splay`
interval tree, the page manager, `posix_memalign`) is modelled from the
specification; every such definition carries a doc comment starting with
"Modelled from the spec:".
-/

namespace SafeCode

/-! ## Interval store (adl_splay) -/

/-- One record of an interval store: a half-open interval
`[start, start+len)` with an attached tag (in the C runtime the tag is a
`void*`, here a `Nat`). -/
structure Interval where
  start : Nat
  len : Nat
  tag : Nat
deriving DecidableEq

/-- Modelled from the spec: the `adl_splay` interval tree (spec 4.B), whose
implementation file is not in the source tree, is modelled as the list of its
intervals.  Splaying only affects performance, not results, so the tree
structure itself is irrelevant to the semantics. -/
abbrev IntervalMap := List Interval

/-- `iv` contains the key `key` (the containment test
`start <= key && start + len > key` used throughout the runtime). -/
def containsKey (iv : Interval) (key : Nat) : Bool :=
  decide (iv.start ≤ key) && decide (key < iv.start + iv.len)

/-- Modelled from the spec: `adl_splay_insert(tree, start, len, tag)`
records the interval `[start, start+len)` with tag `tag` (spec 4.B). -/
def insertIv (m : IntervalMap) (s l t : Nat) : IntervalMap :=
  (⟨s, l, t⟩ : Interval) :: m

/-- Modelled from the spec: `adl_splay_delete(tree, key)` removes the
interval keyed by `key` (spec 4.B: delete by interval start). -/
def deleteIv (m : IntervalMap) (key : Nat) : IntervalMap :=
  List.filter (fun iv => iv.start ≠ key) m

/-- Modelled from the spec: `adl_splay_retrieve(tree, &key, &len, &tag)`
locates the interval containing `key`; on success it reports the interval's
start, length and tag (spec 4.B). -/
def retrieve (m : IntervalMap) (key : Nat) : Option Interval :=
  List.find? (fun iv => containsKey iv key) m

/-- Intervals of a store never overlap (spec 4.B: "intervals may not overlap
within a single index"). -/
def IvWF (m : IntervalMap) : Prop :=
  List.Pairwise
    (fun a b => a.start + a.len ≤ b.start ∨ b.start + b.len ≤ a.start) m

theorem retrieve_isSome_iff (m : IntervalMap) (key : Nat) :
    (retrieve m key).isSome = true ↔ ∃ iv ∈ m, containsKey iv key = true := by
  simp [retrieve, List.find?_isSome]

theorem retrieve_eq_none (m : IntervalMap) (key : Nat)
    (h : ∀ iv ∈ m, containsKey iv key = false) :
    retrieve m key = none := by
  unfold retrieve
  rw [List.find?_eq_none]
  intro iv hmem
  simp [h iv hmem]

theorem retrieve_mem (m : IntervalMap) (key : Nat) (iv : Interval)
    (h : retrieve m key = some iv) :
    iv ∈ m ∧ containsKey iv key = true := by
  unfold retrieve at h
  refine ⟨List.mem_of_find?_eq_some h, ?_⟩
  simpa using List.find?_some h

/-- In a well-formed store, looking up a key inside a member interval finds
exactly that interval. -/
theorem retrieve_eq_of_mem (m : IntervalMap) (iv : Interval) (key : Nat)
    (hwf : IvWF m) (hmem : iv ∈ m) (hc : containsKey iv key = true) :
    retrieve m key = some iv := by
  induction m with
  | nil => cases hmem
  | cons hd tl ih =>
    rcases List.mem_cons.mp hmem with hmem1 | hmem1
    · subst hmem1
      unfold retrieve
      simp [List.find?_cons, hc]
    · have hdisj := (List.pairwise_cons.mp hwf).1 iv hmem1
      have hhd : containsKey hd key = false := by
        unfold containsKey at hc ⊢
        simp only [Bool.and_eq_true, decide_eq_true_eq] at hc
        simp only [Bool.and_eq_false_iff, decide_eq_false_iff_not]
        rcases hdisj with h | h
        · right; omega
        · left; omega
      unfold retrieve at *
      rw [List.find?_cons, hhd]
      exact ih (List.Pairwise.of_cons hwf) hmem1

/-! ## Outcomes of checking primitives -/

/-- Result of a checking primitive that returns no value: it either returns
silently, prints a warning and returns, or reports a violation and calls
`abort()`. -/
inductive CheckResult where
  | ok
  | warned
  | aborted
deriving DecidableEq

/-- Result of a primitive that returns a pointer or aborts. -/
inductive BCResult where
  | ret (p : Nat)
  | aborted
deriving DecidableEq

/-! ## Pool state (PoolTy fields used by the checking primitives) -/

/-- The fields of `PoolTy` consulted by the checking primitives: the splay
of live objects (`Pool->Objects`) and the splay of out-of-bounds rewrite
pointers (`Pool->OOB`). -/
structure PoolT where
  objects : IntervalMap
  oob : IntervalMap
deriving DecidableEq

/-- Helper for the recurring C pattern
`fs && (S <= Node) && ((char*)S + len > (char*)Node)` applied to the result
of a retrieve. -/
def foundInBounds (r : Option Interval) (node : Nat) : Bool :=
  match r with
  | some iv => containsKey iv node
  | none => false

/-! ## poolregister / poolunregister / poolcheck / poolcheckui

Translated from PoolAllocatorBitMask.cpp.  A pool handle is
`Option PoolT`; `none` is the C `NULL` pool pointer. -/

/-- `poolregister(Pool, allocaptr, NumBytes)`: if the pool is NULL do
nothing, else insert `[allocaptr, allocaptr+NumBytes)` into the pool's
object splay. -/
def poolregister (pool : Option PoolT) (allocaptr numBytes : Nat) :
    Option PoolT :=
  match pool with
  | none => none
  | some p => some { p with objects := insertIv p.objects allocaptr numBytes 0 }

/-- `poolunregister(Pool, allocaptr)`: if the pool is NULL do nothing, else
delete the record keyed by `allocaptr`. -/
def poolunregister (pool : Option PoolT) (allocaptr : Nat) : Option PoolT :=
  match pool with
  | none => none
  | some p => some { p with objects := deleteIv p.objects allocaptr }

/-- `poolcheck(Pool, Node)`: NULL pool returns silently; otherwise succeed
iff the object splay holds an interval containing `Node`, else report and
abort. -/
def poolcheck (pool : Option PoolT) (node : Nat) : CheckResult :=
  match pool with
  | none => CheckResult.ok
  | some p =>
    if foundInBounds (retrieve p.objects node) node then CheckResult.ok
    else CheckResult.aborted

/-- `poolcheckui(Pool, Node)`: NULL pool returns silently; succeed if the
pool's object splay contains `Node`; otherwise also consult the global
`ExternalObjects` splay (`ext`); if neither matches, print a warning and
return normally. -/
def poolcheckui (ext : IntervalMap) (pool : Option PoolT) (node : Nat) :
    CheckResult :=
  match pool with
  | none => CheckResult.ok
  | some p =>
    if foundInBounds (retrieve p.objects node) node then CheckResult.ok
    else if foundInBounds (retrieve ext node) node then CheckResult.ok
    else CheckResult.warned

/-! ## funccheck -/

/-- The vararg scan of `funccheck`: compare `f` against each candidate in
turn, succeeding on a match, aborting when the list is exhausted. -/
def funccheckScan (f : Nat) : List Nat → CheckResult
  | [] => CheckResult.aborted
  | h :: t => if f = h then CheckResult.ok else funccheckScan f t

/-- `funccheck(num, f, g, ...)`: test `f` against the first fixed candidate
`g`, then against the `num - 1` variadic candidates `rest.take (num - 1)`
(the C loop runs `i` from 1 to `num`, reading one vararg per iteration). -/
def funccheck (num f g : Nat) (rest : List Nat) : CheckResult :=
  if f = g then CheckResult.ok
  else funccheckScan f (rest.take (num - 1))

/-! ## Bit-mask arithmetic

The runtime discriminates rewrite pointers with `p & ~(InvalidUpper-1)` and
tests alignment with `p & ~((1<<size)-1)`.  On a `w`-bit machine the
complement `~(2^k - 1)` is `2^w - 2^k`; the following lemmas characterise
`p &&& (2^w - 2^k)`. -/

theorem land_high_mask (w k p : Nat) (hk : k ≤ w) (hp : p < 2 ^ w) :
    p &&& (2 ^ w - 2 ^ k) = 2 ^ k * (p / 2 ^ k) := by
  have hmask : 2 ^ w - 2 ^ k = 2 ^ k * (2 ^ (w - k) - 1) := by
    rw [Nat.mul_sub, Nat.mul_one, ← pow_add]
    congr 2
    omega
  apply Nat.eq_of_testBit_eq
  intro i
  rw [Nat.testBit_and, hmask, Nat.testBit_mul_pow_two, Nat.testBit_mul_pow_two,
    Nat.testBit_two_pow_sub_one]
  have hdiv : p / 2 ^ k = p >>> k := (Nat.shiftRight_eq_div_pow p k).symm
  rw [hdiv, Nat.testBit_shiftRight]
  by_cases hik : k ≤ i
  · have h1 : k + (i - k) = i := by omega
    rw [h1]
    by_cases hiw : i < w
    · have h2 : i - k < w - k := by omega
      simp [ge_iff_le, hik, h2, Bool.and_comm]
    · have : p.testBit i = false := by
        apply Nat.testBit_lt_two_pow
        calc p < 2 ^ w := hp
          _ ≤ 2 ^ i := Nat.pow_le_pow_right (by omega) (by omega)
      simp [this]
  · simp [ge_iff_le, hik]

theorem land_high_mask_eq_zero_iff (w k p : Nat) (hk : k ≤ w)
    (hp : p < 2 ^ w) : (p &&& (2 ^ w - 2 ^ k) = 0) ↔ p < 2 ^ k := by
  rw [land_high_mask w k p hk hp]
  have h2k : 0 < 2 ^ k := Nat.pos_pow_of_pos k (by omega)
  rw [Nat.mul_eq_zero]
  constructor
  · rintro (h1 | h1)
    · omega
    · exact (Nat.div_eq_zero_iff h2k).mp h1
  · intro h
    exact Or.inr (Nat.div_eq_of_lt h)

theorem land_high_mask_eq_self_iff (w k p : Nat) (hk : k ≤ w)
    (hp : p < 2 ^ w) : (p &&& (2 ^ w - 2 ^ k) = p) ↔ p % 2 ^ k = 0 := by
  rw [land_high_mask w k p hk hp]
  have hdm := Nat.div_add_mod p (2 ^ k)
  have hle : p % 2 ^ k ≤ p := Nat.mod_le p (2 ^ k)
  omega

/-! ## Out-of-bounds rewrite pointers: boundscheck / boundscheckui /
pchk_getActualValue

The pool runtime is 32-bit (`unsigned` pointer casts throughout); the C
mask `~(InvalidUpper - 1)` is `2^32 - InvalidUpper`. -/

/-- The reserved invalid address region `[InvalidLower, InvalidUpper)`
set up at runtime initialisation (spec 4.D). -/
structure OOBConfig where
  invalidLower : Nat
  invalidUpper : Nat
deriving DecidableEq

/-- The discrimination test `(unsigned)p & ~(InvalidUpper - 1)` being
nonzero (i.e. `p` lies outside `[0, InvalidUpper)` when `InvalidUpper` is a
power of two). -/
def oobMaskTest (cfg : OOBConfig) (p : Nat) : Bool :=
  p &&& (2 ^ 32 - cfg.invalidUpper) != 0

/-- The value the cursor `invalidptr` holds after its lazy initialisation
`if (invalidptr == 0) invalidptr = (unsigned char*)InvalidLower;`. -/
def cursorBase (cfg : OOBConfig) (invalidptr : Nat) : Nat :=
  if invalidptr = 0 then cfg.invalidLower else invalidptr

/-- The freshly minted candidate rewrite pointer: `++invalidptr` after the
lazy initialisation (32-bit pointer arithmetic). -/
def mintPtr (cfg : OOBConfig) (invalidptr : Nat) : Nat :=
  (cursorBase cfg invalidptr + 1) % 2 ^ 32

/-- `boundscheck(Pool, Source, Dest)`: look up the object containing
`Source`; return `Dest` if it stays inside that object; if `Dest` is
exactly one past the end, mint a fresh rewrite pointer from the
`invalidptr` cursor and record it in `Pool->OOB` (falling back to returning
`Dest` when the cursor has left the reserved region: the `abort()`
alternative in that branch is compiled out with `#if 0`); otherwise report
and abort.  The result carries the updated pool and cursor. -/
def boundscheck (cfg : OOBConfig) (pool : PoolT) (invalidptr : Nat)
    (source dest : Nat) : BCResult × PoolT × Nat :=
  match retrieve pool.objects source with
  | some iv =>
    if containsKey iv dest then (BCResult.ret dest, pool, invalidptr)
    else if dest = iv.start + iv.len then
      if oobMaskTest cfg (mintPtr cfg invalidptr) then
        (BCResult.ret dest, pool, mintPtr cfg invalidptr)
      else
        (BCResult.ret (mintPtr cfg invalidptr),
          { pool with
              oob := insertIv pool.oob (mintPtr cfg invalidptr) 1 dest },
          mintPtr cfg invalidptr)
    else (BCResult.aborted, pool, invalidptr)
  | none => (BCResult.aborted, pool, invalidptr)

/-- `boundscheckui(Pool, Source, Dest)`: like `boundscheck`, but when
`Source` is in no pool object (or `Dest` is farther out of bounds), fall
through to the incompleteness tail: abort only for a NULL `Source`;
otherwise consult the external-object splay and return `Dest` regardless of
the outcome (the two non-matching paths differ only in which warning is
printed). -/
def boundscheckui (cfg : OOBConfig) (ext : IntervalMap) (pool : PoolT)
    (invalidptr : Nat) (source dest : Nat) : BCResult × PoolT × Nat :=
  let tail : BCResult :=
    if source = 0 then BCResult.aborted
    else
      match retrieve ext source with
      | some iv2 =>
        if containsKey iv2 dest then BCResult.ret dest
        else BCResult.ret dest
      | none => BCResult.ret dest
  match retrieve pool.objects source with
  | some iv =>
    if containsKey iv dest then (BCResult.ret dest, pool, invalidptr)
    else if dest = iv.start + iv.len then
      if oobMaskTest cfg (mintPtr cfg invalidptr) then
        (BCResult.ret dest, pool, mintPtr cfg invalidptr)
      else
        (BCResult.ret (mintPtr cfg invalidptr),
          { pool with
              oob := insertIv pool.oob (mintPtr cfg invalidptr) 1 dest },
          mintPtr cfg invalidptr)
    else (tail, pool, invalidptr)
  | none => (tail, pool, invalidptr)

/-- `pchk_getActualValue(Pool, src)`: pointers at or below `InvalidLower`
or failing the rewrite-region mask test are returned unchanged; pointers in
the rewrite region are mapped back through `Pool->OOB`, aborting when the
lookup fails. -/
def pchk_getActualValue (cfg : OOBConfig) (pool : PoolT) (src : Nat) :
    BCResult :=
  if src ≤ cfg.invalidLower then BCResult.ret src
  else if oobMaskTest cfg src then BCResult.ret src
  else
    match retrieve pool.oob src with
    | some iv => BCResult.ret iv.tag
    | none => BCResult.aborted

/-! ## Helper lemmas about retrieval -/

theorem foundInBounds_eq_isSome (m : IntervalMap) (q : Nat) :
    foundInBounds (retrieve m q) q = (retrieve m q).isSome := by
  cases hr : retrieve m q with
  | some iv => simp [foundInBounds, (retrieve_mem m q iv hr).2]
  | none => simp [foundInBounds]

/-! ## Claim C10: NULL pool handles -/

/-- Claim C10: when the pool handle is NULL, `poolcheck`, `poolcheckui`,
`poolregister` and `poolunregister` return immediately: the checks succeed
without warning or abort, and the registration primitives leave everything
unchanged. -/
theorem nullPool_noop (ext : IntervalMap) (p n q : Nat) :
    poolcheck none q = CheckResult.ok ∧
    poolcheckui ext none q = CheckResult.ok ∧
    poolregister none p n = none ∧
    poolunregister none p = none :=
  ⟨rfl, rfl, rfl, rfl⟩

/-! ## Claim C2: poolregister / poolcheck -/

/-- Claim C2: after `poolregister(P, p, n)`, `poolcheck` succeeds on every
pointer of `[p, p+n)`; and on any pool, `poolcheck` aborts on a pointer
contained in no live object. -/
theorem poolregister_poolcheck (pool : PoolT) (p n : Nat) :
    (∀ q, p ≤ q → q < p + n →
      poolcheck (poolregister (some pool) p n) q = CheckResult.ok) ∧
    (∀ q pool1, poolregister (some pool) p n = some pool1 →
      (∀ iv ∈ pool1.objects, containsKey iv q = false) →
      poolcheck (some pool1) q = CheckResult.aborted) := by
  constructor
  · intro q h1 h2
    have hc : containsKey ⟨p, n, 0⟩ q = true := by
      simp [containsKey]; omega
    simp [poolregister, poolcheck, insertIv, retrieve, List.find?_cons, hc,
      foundInBounds]
  · intro q pool1 hreg hnone
    have hr : retrieve pool1.objects q = none := retrieve_eq_none _ _ hnone
    simp [poolcheck, hr, foundInBounds]

/-- Witness for C2 at a concrete pool. -/
theorem poolregister_poolcheck_witness :
    poolcheck (poolregister (some ⟨[], []⟩) 100 4) 102 = CheckResult.ok ∧
    poolcheck (some ⟨[⟨100, 4, 0⟩], []⟩) 7 = CheckResult.aborted := by
  constructor
  · exact (poolregister_poolcheck ⟨[], []⟩ 100 4).1 102 (by decide) (by decide)
  · exact (poolregister_poolcheck ⟨[], []⟩ 100 4).2 7 ⟨[⟨100, 4, 0⟩], []⟩
      rfl (by decide)

/-! ## Claim C7: poolcheckui -/

/-- Claim C7: `poolcheckui` succeeds when the pointer lies in a live object
of the pool or in a registered external object; when neither table matches
it warns and returns normally, whereas `poolcheck` aborts. -/
theorem poolcheckui_spec (ext : IntervalMap) (pool : PoolT) (p : Nat) :
    ((∃ iv ∈ pool.objects, containsKey iv p = true) ∨
      (∃ iv ∈ ext, containsKey iv p = true) →
      poolcheckui ext (some pool) p = CheckResult.ok) ∧
    ((∀ iv ∈ pool.objects, containsKey iv p = false) →
      (∀ iv ∈ ext, containsKey iv p = false) →
      poolcheckui ext (some pool) p = CheckResult.warned ∧
      poolcheck (some pool) p = CheckResult.aborted) := by
  constructor
  · intro h
    rcases h with h | h
    · have h1 : foundInBounds (retrieve pool.objects p) p = true := by
        rw [foundInBounds_eq_isSome, retrieve_isSome_iff]; exact h
      simp [poolcheckui, h1]
    · have h1 : foundInBounds (retrieve ext p) p = true := by
        rw [foundInBounds_eq_isSome, retrieve_isSome_iff]; exact h
      by_cases h0 : foundInBounds (retrieve pool.objects p) p = true
      · simp [poolcheckui, h0]
      · simp [poolcheckui, h0, h1]
  · intro h1 h2
    have e1 : retrieve pool.objects p = none := retrieve_eq_none _ _ h1
    have e2 : retrieve ext p = none := retrieve_eq_none _ _ h2
    exact ⟨by simp [poolcheckui, e1, e2, foundInBounds],
      by simp [poolcheck, e1, foundInBounds]⟩

/-- Witness for C7: success through the external-object table, and the
warn-versus-abort contrast on an unknown pointer. -/
theorem poolcheckui_spec_witness :
    poolcheckui [⟨200, 8, 0⟩] (some ⟨[⟨100, 4, 0⟩], []⟩) 203 =
      CheckResult.ok ∧
    poolcheckui [⟨200, 8, 0⟩] (some ⟨[⟨100, 4, 0⟩], []⟩) 7 =
      CheckResult.warned ∧
    poolcheck (some ⟨[⟨100, 4, 0⟩], []⟩) 7 = CheckResult.aborted := by
  refine ⟨?_, ?_, ?_⟩
  · exact (poolcheckui_spec [⟨200, 8, 0⟩] ⟨[⟨100, 4, 0⟩], []⟩ 203).1
      (Or.inr ⟨⟨200, 8, 0⟩, by decide, by decide⟩)
  · exact ((poolcheckui_spec [⟨200, 8, 0⟩] ⟨[⟨100, 4, 0⟩], []⟩ 7).2
      (by decide) (by decide)).1
  · exact ((poolcheckui_spec [⟨200, 8, 0⟩] ⟨[⟨100, 4, 0⟩], []⟩ 7).2
      (by decide) (by decide)).2

/-! ## Claim C9: funccheck -/

theorem funccheckScan_ok_iff (f : Nat) (l : List Nat) :
    funccheckScan f l = CheckResult.ok ↔ f ∈ l := by
  induction l with
  | nil => simp [funccheckScan]
  | cons h t ih =>
    by_cases hf : f = h
    · simp [funccheckScan, hf]
    · simp [funccheckScan, hf, ih]

theorem funccheckScan_eq_aborted (f : Nat) (l : List Nat)
    (h : f ∉ l) : funccheckScan f l = CheckResult.aborted := by
  induction l with
  | nil => simp [funccheckScan]
  | cons hd t ih =>
    have hf : f ≠ hd := fun he => h (he ▸ List.mem_cons_self hd t)
    simp only [funccheckScan, if_neg hf]
    exact ih (fun hm => h (List.mem_cons_of_mem hd hm))

/-- Claim C9: `funccheck(num, f, g, ...)` with its `num - 1` variadic
candidates succeeds iff `f` is one of the `num` candidates, and aborts
otherwise. -/
theorem funccheck_spec (num f g : Nat) (rest : List Nat)
    (h1 : 1 ≤ num) (h2 : rest.length = num - 1) :
    (funccheck num f g rest = CheckResult.ok ↔ f ∈ g :: rest) ∧
    (f ∉ g :: rest → funccheck num f g rest = CheckResult.aborted) := by
  have htake : rest.take (num - 1) = rest := by
    rw [← h2]; exact List.take_length rest
  unfold funccheck
  rw [htake]
  constructor
  · by_cases hfg : f = g
    · simp [hfg]
    · simp [hfg, funccheckScan_ok_iff]
  · intro hmem
    have hfg : f ≠ g := fun he => hmem (he ▸ List.mem_cons_self g rest)
    rw [if_neg hfg]
    exact funccheckScan_eq_aborted f rest
      (fun hm => hmem (List.mem_cons_of_mem g hm))

/-- Witness for C9 (the spec's scenario S6 with numeric stand-ins for the
function pointers). -/
theorem funccheck_spec_witness :
    funccheck 3 1 1 [2, 3] = CheckResult.ok ∧
    funccheck 3 4 1 [2, 3] = CheckResult.aborted := by
  constructor
  · exact (funccheck_spec 3 1 1 [2, 3] (by decide) (by decide)).1.mpr
      (by decide)
  · exact (funccheck_spec 3 4 1 [2, 3] (by decide) (by decide)).2 (by decide)

/-! ## Claims C1, C3, C6: boundscheck and pchk_getActualValue -/

/-- A well-formed cursor/region configuration: the runtime reserves a
power-of-two-bounded region `[InvalidLower, 2^k)` (spec 4.D requires the
region to be placed so that the mask test discriminates it), and the
monotone cursor is either still unset (0) or inside-or-above the region. -/
def CursorWF (cfg : OOBConfig) (invalidptr : Nat) : Prop :=
  invalidptr = 0 ∨ cfg.invalidLower ≤ invalidptr

/-- Branch lemma: `dst` inside the object found for `src`. -/
theorem boundscheck_in_object (cfg : OOBConfig) (pool : PoolT)
    (invalidptr src dst : Nat) (iv : Interval)
    (hret : retrieve pool.objects src = some iv)
    (hd : containsKey iv dst = true) :
    boundscheck cfg pool invalidptr src dst =
      (BCResult.ret dst, pool, invalidptr) := by
  unfold boundscheck
  rw [hret]
  simp [hd]

/-- Branch lemma: `dst` one past the end, cursor still inside the region:
a rewrite pointer is minted and recorded. -/
theorem boundscheck_mint (cfg : OOBConfig) (pool : PoolT)
    (invalidptr src dst : Nat) (iv : Interval)
    (hret : retrieve pool.objects src = some iv)
    (hd : containsKey iv dst = false)
    (hpe : dst = iv.start + iv.len)
    (hm : oobMaskTest cfg (mintPtr cfg invalidptr) = false) :
    boundscheck cfg pool invalidptr src dst =
      (BCResult.ret (mintPtr cfg invalidptr),
        { pool with oob := insertIv pool.oob (mintPtr cfg invalidptr) 1 dst },
        mintPtr cfg invalidptr) := by
  subst hpe
  unfold boundscheck
  rw [hret]
  simp [hd, hm]

/-- Branch lemma: `dst` one past the end but the cursor has left the
reserved region: the code returns the true out-of-bounds pointer `dst`
(the `abort()` alternative is disabled with `#if 0`). -/
theorem boundscheck_exhausted (cfg : OOBConfig) (pool : PoolT)
    (invalidptr src dst : Nat) (iv : Interval)
    (hret : retrieve pool.objects src = some iv)
    (hd : containsKey iv dst = false)
    (hpe : dst = iv.start + iv.len)
    (hm : oobMaskTest cfg (mintPtr cfg invalidptr) = true) :
    boundscheck cfg pool invalidptr src dst =
      (BCResult.ret dst, pool, mintPtr cfg invalidptr) := by
  subst hpe
  unfold boundscheck
  rw [hret]
  simp [hd, hm]

/-- Branch lemma: `dst` out of bounds beyond one-past-the-end aborts. -/
theorem boundscheck_far_oob (cfg : OOBConfig) (pool : PoolT)
    (invalidptr src dst : Nat) (iv : Interval)
    (hret : retrieve pool.objects src = some iv)
    (hd : containsKey iv dst = false)
    (hpe : dst ≠ iv.start + iv.len) :
    boundscheck cfg pool invalidptr src dst =
      (BCResult.aborted, pool, invalidptr) := by
  unfold boundscheck
  rw [hret]
  simp [hd, hpe]

/-- `pchk_getActualValue` resolves a freshly recorded rewrite pointer. -/
theorem getActualValue_insertIv (cfg : OOBConfig) (pool : PoolT)
    (p dst : Nat) (h1 : cfg.invalidLower < p)
    (hm : oobMaskTest cfg p = false) :
    pchk_getActualValue cfg
      { pool with oob := insertIv pool.oob p 1 dst } p = BCResult.ret dst := by
  unfold pchk_getActualValue
  rw [if_neg (by omega), hm]
  have hhead : containsKey ⟨p, 1, dst⟩ p = true := by simp [containsKey]
  simp [retrieve, insertIv, List.find?_cons, hhead]

/-- When the cursor has not exhausted the region, the minted pointer
equals `cursorBase + 1` and passes the mask test. -/
theorem maskTest_of_not_exhausted (cfg : OOBConfig) (invalidptr k : Nat)
    (hk : cfg.invalidUpper = 2 ^ k) (hk32 : k ≤ 32)
    (hnex : cursorBase cfg invalidptr + 1 < cfg.invalidUpper) :
    mintPtr cfg invalidptr = cursorBase cfg invalidptr + 1 ∧
    oobMaskTest cfg (mintPtr cfg invalidptr) = false := by
  have hplt : cursorBase cfg invalidptr + 1 < 2 ^ k := by rw [← hk]; exact hnex
  have hlt32 : cursorBase cfg invalidptr + 1 < 2 ^ 32 := by
    calc cursorBase cfg invalidptr + 1 < 2 ^ k := hplt
      _ ≤ 2 ^ 32 := Nat.pow_le_pow_right (by omega) hk32
  have hmod : mintPtr cfg invalidptr = cursorBase cfg invalidptr + 1 := by
    unfold mintPtr
    exact Nat.mod_eq_of_lt hlt32
  refine ⟨hmod, ?_⟩
  unfold oobMaskTest
  rw [hmod, hk]
  simp only [bne_eq_false_iff_eq]
  exact (land_high_mask_eq_zero_iff 32 k _ hk32 hlt32).mpr hplt

/-- Claim C1 (amended): with a live object `[base, base+len)` containing
`src`, `boundscheck` returns `dst` iff `dst` lies inside that same object;
when `dst` is exactly one past the end (and the rewrite cursor has not
exhausted the region) it instead returns a freshly minted OOB rewrite
pointer `r` inside the reserved region with
`pchk_getActualValue(pool, r) = dst`; any other `dst` aborts. -/
theorem boundscheck_spec (cfg : OOBConfig) (pool : PoolT)
    (invalidptr src dst base len tg k : Nat)
    (hwf : IvWF pool.objects)
    (hmem : (⟨base, len, tg⟩ : Interval) ∈ pool.objects)
    (hsrc1 : base ≤ src) (hsrc2 : src < base + len)
    (hk : cfg.invalidUpper = 2 ^ k) (hk32 : k ≤ 32)
    (hcur : CursorWF cfg invalidptr)
    (hnex : cursorBase cfg invalidptr + 1 < cfg.invalidUpper)
    (hbelow : base + len ≤ cfg.invalidLower) :
    ((boundscheck cfg pool invalidptr src dst).1 = BCResult.ret dst ↔
      base ≤ dst ∧ dst < base + len) ∧
    (dst = base + len →
      ∃ r pool1,
        boundscheck cfg pool invalidptr src dst = (BCResult.ret r, pool1, r) ∧
        cfg.invalidLower < r ∧ r < cfg.invalidUpper ∧
        pchk_getActualValue cfg pool1 r = BCResult.ret dst) ∧
    (¬(base ≤ dst ∧ dst < base + len) → dst ≠ base + len →
      (boundscheck cfg pool invalidptr src dst).1 = BCResult.aborted) := by
  have hc : containsKey ⟨base, len, tg⟩ src = true := by
    simp [containsKey]; omega
  have hret : retrieve pool.objects src = some ⟨base, len, tg⟩ :=
    retrieve_eq_of_mem pool.objects ⟨base, len, tg⟩ src hwf hmem hc
  have hip0low : cfg.invalidLower ≤ cursorBase cfg invalidptr := by
    rcases hcur with h | h
    · simp [cursorBase, h]
    · by_cases h0 : invalidptr = 0 <;> simp [cursorBase, h0, h]
  obtain ⟨hmod, hmask⟩ := maskTest_of_not_exhausted cfg invalidptr k hk hk32 hnex
  refine ⟨?_, ?_, ?_⟩
  · constructor
    · intro hres
      by_contra hnin
      have hd : containsKey ⟨base, len, tg⟩ dst = false := by
        simp only [containsKey, Bool.and_eq_false_iff, decide_eq_false_iff_not]
        omega
      by_cases hpe : dst = base + len
      · rw [boundscheck_mint cfg pool invalidptr src dst ⟨base, len, tg⟩
          hret hd hpe hmask] at hres
        simp only [BCResult.ret.injEq] at hres
        omega
      · rw [boundscheck_far_oob cfg pool invalidptr src dst ⟨base, len, tg⟩
          hret hd hpe] at hres
        cases hres
    · intro hin
      have hd : containsKey ⟨base, len, tg⟩ dst = true := by
        simp [containsKey]; omega
      rw [boundscheck_in_object cfg pool invalidptr src dst ⟨base, len, tg⟩
        hret hd]
  · intro hpe
    have hd : containsKey ⟨base, len, tg⟩ dst = false := by
      simp only [containsKey, Bool.and_eq_false_iff, decide_eq_false_iff_not]
      omega
    refine ⟨mintPtr cfg invalidptr,
      { pool with oob := insertIv pool.oob (mintPtr cfg invalidptr) 1 dst },
      ?_, ?_, ?_, ?_⟩
    · exact boundscheck_mint cfg pool invalidptr src dst ⟨base, len, tg⟩
        hret hd hpe hmask
    · omega
    · omega
    · exact getActualValue_insertIv cfg pool _ dst (by omega) hmask
  · intro hnin hne
    have hd : containsKey ⟨base, len, tg⟩ dst = false := by
      simp only [containsKey, Bool.and_eq_false_iff, decide_eq_false_iff_not]
      omega
    rw [boundscheck_far_oob cfg pool invalidptr src dst ⟨base, len, tg⟩
      hret hd hne]

/-- Witness for C1 (amended): object `[100,104)` in a pool, region
`[2^30, 2^31)`, fresh cursor.  In-object, one-past-the-end (whose rewrite
pointer resolves back through `pchk_getActualValue`), and far
out-of-bounds cases. -/
theorem boundscheck_spec_witness :
    (boundscheck ⟨2 ^ 30, 2 ^ 31⟩ ⟨[⟨100, 4, 0⟩], []⟩ 0 100 102).1 =
      BCResult.ret 102 ∧
    pchk_getActualValue ⟨2 ^ 30, 2 ^ 31⟩
      (boundscheck ⟨2 ^ 30, 2 ^ 31⟩ ⟨[⟨100, 4, 0⟩], []⟩ 0 100 104).2.1
      (boundscheck ⟨2 ^ 30, 2 ^ 31⟩ ⟨[⟨100, 4, 0⟩], []⟩ 0 100 104).2.2 =
      BCResult.ret 104 ∧
    (boundscheck ⟨2 ^ 30, 2 ^ 31⟩ ⟨[⟨100, 4, 0⟩], []⟩ 0 100 120).1 =
      BCResult.aborted := by
  have hbase := boundscheck_spec ⟨2 ^ 30, 2 ^ 31⟩ ⟨[⟨100, 4, 0⟩], []⟩ 0 100
  refine ⟨?_, ?_, ?_⟩
  · exact (hbase 102 100 4 0 31 (by simp [IvWF]) (by decide) (by decide)
      (by decide) rfl (by decide) (Or.inl rfl) (by decide) (by decide)).1.mpr
      (by decide)
  · rcases (hbase 104 100 4 0 31 (by simp [IvWF]) (by decide) (by decide)
      (by decide) rfl (by decide) (Or.inl rfl) (by decide) (by decide)).2.1
      rfl with ⟨r, pool1, heq, _, _, hgav⟩
    rw [heq]
    exact hgav
  · exact (hbase 120 100 4 0 31 (by simp [IvWF]) (by decide) (by decide)
      (by decide) rfl (by decide) (Or.inl rfl) (by decide) (by decide)).2.2
      (by decide) (by decide)

/-- Counterexample to C1 as stated: the claim says `boundscheck` returns
`dst` when `dst == base+len` (one past the end), but at the concrete input
below the code returns the freshly minted rewrite pointer `2^30 + 1`, which
is different from `dst = 104`. -/
theorem boundscheck_claim_counterexample :
    (boundscheck ⟨2 ^ 30, 2 ^ 31⟩ ⟨[⟨100, 4, 0⟩], []⟩ 0 100 104).1 =
      BCResult.ret (2 ^ 30 + 1) ∧
    BCResult.ret (2 ^ 30 + 1) ≠ BCResult.ret 104 := by decide

/-- Claim C3: `pchk_getActualValue` is the identity on every pointer
outside the reserved rewrite region, and is a left-inverse of
`boundscheck` on rewrite outputs: applying it (in the updated pool) to the
rewrite pointer minted for an intended target `dst` yields `dst`. -/
theorem pchk_getActualValue_spec (cfg : OOBConfig) (k : Nat)
    (hk : cfg.invalidUpper = 2 ^ k) (hk32 : k ≤ 32) :
    (∀ pool p, p < 2 ^ 32 →
      p < cfg.invalidLower ∨ cfg.invalidUpper ≤ p →
      pchk_getActualValue cfg pool p = BCResult.ret p) ∧
    (∀ pool invalidptr src dst base len tg,
      IvWF pool.objects →
      (⟨base, len, tg⟩ : Interval) ∈ pool.objects →
      base ≤ src → src < base + len →
      CursorWF cfg invalidptr →
      cursorBase cfg invalidptr + 1 < cfg.invalidUpper →
      base + len ≤ cfg.invalidLower →
      dst = base + len →
      pchk_getActualValue cfg
        (boundscheck cfg pool invalidptr src dst).2.1
        (boundscheck cfg pool invalidptr src dst).2.2 = BCResult.ret dst) := by
  constructor
  · intro pool p hp32 hout
    unfold pchk_getActualValue
    by_cases hle : p ≤ cfg.invalidLower
    · rw [if_pos hle]
    · rw [if_neg hle]
      have hmask : oobMaskTest cfg p = true := by
        unfold oobMaskTest
        rw [hk]
        simp only [bne_iff_ne, ne_eq]
        intro h0
        have hplt := (land_high_mask_eq_zero_iff 32 k p hk32 hp32).mp h0
        rcases hout with h | h
        · omega
        · rw [hk] at h; omega
      rw [hmask, if_pos rfl]
  · intro pool invalidptr src dst base len tg hwf hmem hsrc1 hsrc2 hcur
      hnex hbelow hdst
    rcases (boundscheck_spec cfg pool invalidptr src dst base len tg k hwf
      hmem hsrc1 hsrc2 hk hk32 hcur hnex hbelow).2.1 hdst with
      ⟨r, pool1, heq, _, _, hgav⟩
    rw [heq]
    exact hgav

/-- Witness for C3: identity below and above the region `[2^30, 2^31)`,
and the left-inverse property for the rewrite pointer minted at a
one-past-the-end access. -/
theorem pchk_getActualValue_spec_witness :
    pchk_getActualValue ⟨2 ^ 30, 2 ^ 31⟩ ⟨[], []⟩ 7 = BCResult.ret 7 ∧
    pchk_getActualValue ⟨2 ^ 30, 2 ^ 31⟩ ⟨[], []⟩ (2 ^ 31 + 5) =
      BCResult.ret (2 ^ 31 + 5) ∧
    pchk_getActualValue ⟨2 ^ 30, 2 ^ 31⟩
      (boundscheck ⟨2 ^ 30, 2 ^ 31⟩ ⟨[⟨100, 4, 0⟩], []⟩ 0 100 104).2.1
      (boundscheck ⟨2 ^ 30, 2 ^ 31⟩ ⟨[⟨100, 4, 0⟩], []⟩ 0 100 104).2.2 =
      BCResult.ret 104 := by
  have hbase := pchk_getActualValue_spec ⟨2 ^ 30, 2 ^ 31⟩ 31 rfl (by decide)
  refine ⟨?_, ?_, ?_⟩
  · exact hbase.1 ⟨[], []⟩ 7 (by decide) (Or.inl (by decide))
  · exact hbase.1 ⟨[], []⟩ (2 ^ 31 + 5) (by decide) (Or.inr (by decide))
  · exact hbase.2 ⟨[⟨100, 4, 0⟩], []⟩ 0 100 104 100 4 0 (by simp [IvWF])
      (by decide) (by decide) (by decide) (Or.inl rfl) (by decide)
      (by decide) rfl

/-! ## Claim C6: cursor exhaustion -/

/-- Branch lemma for `boundscheckui`: one past the end with the cursor
outside the region returns `Dest` (the `abort()` alternative is compiled
out with `#if 0`). -/
theorem boundscheckui_exhausted (cfg : OOBConfig) (ext : IntervalMap)
    (pool : PoolT) (invalidptr src dst : Nat) (iv : Interval)
    (hret : retrieve pool.objects src = some iv)
    (hd : containsKey iv dst = false)
    (hpe : dst = iv.start + iv.len)
    (hm : oobMaskTest cfg (mintPtr cfg invalidptr) = true) :
    boundscheckui cfg ext pool invalidptr src dst =
      (BCResult.ret dst, pool, mintPtr cfg invalidptr) := by
  subst hpe
  unfold boundscheckui
  rw [hret]
  simp [hd, hm]

/-- Claim C6 (amended): once the rewrite cursor has left the reserved
region, a one-past-the-end access handled by `boundscheck` or
`boundscheckui` returns the true (out-of-bounds) pointer `dst`
unconditionally: the runtime consults no mode here, and the `abort()`
alternative in this branch is compiled out with `#if 0`. -/
theorem boundscheck_exhausted_spec (cfg : OOBConfig) (pool : PoolT)
    (invalidptr src dst base len tg k : Nat)
    (hwf : IvWF pool.objects)
    (hmem : (⟨base, len, tg⟩ : Interval) ∈ pool.objects)
    (hsrc1 : base ≤ src) (hsrc2 : src < base + len)
    (hk : cfg.invalidUpper = 2 ^ k) (hk32 : k ≤ 32)
    (hex : cfg.invalidUpper ≤ invalidptr)
    (hip32 : invalidptr + 1 < 2 ^ 32)
    (hdst : dst = base + len) :
    (boundscheck cfg pool invalidptr src dst).1 = BCResult.ret dst ∧
    ∀ ext, (boundscheckui cfg ext pool invalidptr src dst).1 =
      BCResult.ret dst := by
  have hc : containsKey ⟨base, len, tg⟩ src = true := by
    simp [containsKey]; omega
  have hret : retrieve pool.objects src = some ⟨base, len, tg⟩ :=
    retrieve_eq_of_mem pool.objects ⟨base, len, tg⟩ src hwf hmem hc
  have hd : containsKey ⟨base, len, tg⟩ dst = false := by
    simp only [containsKey, Bool.and_eq_false_iff, decide_eq_false_iff_not]
    omega
  have hkpos : 0 < 2 ^ k := Nat.pos_pow_of_pos k (by omega)
  have h0 : invalidptr ≠ 0 := by omega
  have hcb : cursorBase cfg invalidptr = invalidptr := by
    simp [cursorBase, h0]
  have hmp : mintPtr cfg invalidptr = invalidptr + 1 := by
    unfold mintPtr
    rw [hcb]
    exact Nat.mod_eq_of_lt hip32
  have hmask : oobMaskTest cfg (mintPtr cfg invalidptr) = true := by
    unfold oobMaskTest
    rw [hmp, hk]
    simp only [bne_iff_ne, ne_eq]
    intro hz
    have := (land_high_mask_eq_zero_iff 32 k _ hk32 hip32).mp hz
    omega
  constructor
  · rw [boundscheck_exhausted cfg pool invalidptr src dst ⟨base, len, tg⟩
      hret hd hdst hmask]
  · intro ext
    rw [boundscheckui_exhausted cfg ext pool invalidptr src dst
      ⟨base, len, tg⟩ hret hd hdst hmask]

/-- Witness for C6 (amended): cursor already at `2^31 + 5`, beyond the
region `[2^30, 2^31)`; a one-past-the-end access returns the true pointer
`104` from both primitives. -/
theorem boundscheck_exhausted_spec_witness :
    (boundscheck ⟨2 ^ 30, 2 ^ 31⟩ ⟨[⟨100, 4, 0⟩], []⟩ (2 ^ 31 + 5)
      100 104).1 = BCResult.ret 104 ∧
    (boundscheckui ⟨2 ^ 30, 2 ^ 31⟩ [] ⟨[⟨100, 4, 0⟩], []⟩ (2 ^ 31 + 5)
      100 104).1 = BCResult.ret 104 := by
  have hbase := boundscheck_exhausted_spec ⟨2 ^ 30, 2 ^ 31⟩
    ⟨[⟨100, 4, 0⟩], []⟩ (2 ^ 31 + 5) 100 104 100 4 0 31 (by simp [IvWF])
    (by decide) (by decide) (by decide) rfl (by decide) (by decide)
    (by decide) rfl
  exact ⟨hbase.1, hbase.2 []⟩

/-- Counterexample to C6 as stated: the claim says that with an exhausted
cursor a bounds violation aborts when the runtime is in strict mode; but
this runtime consults no mode in that branch and returns the true pointer
`dst` (the result is not the aborted outcome) at the concrete exhausted
input below. -/
theorem boundscheck_exhausted_counterexample :
    (boundscheck ⟨2 ^ 30, 2 ^ 31⟩ ⟨[⟨100, 4, 0⟩], []⟩ (2 ^ 31 + 5)
      100 104).1 = BCResult.ret 104 ∧
    (boundscheckui ⟨2 ^ 30, 2 ^ 31⟩ [] ⟨[⟨100, 4, 0⟩], []⟩ (2 ^ 31 + 5)
      100 104).1 = BCResult.ret 104 ∧
    BCResult.ret 104 ≠ BCResult.aborted := by decide

/-! ## PoolSlab (claim C5)

Translated from `struct PoolSlab` in PoolAllocatorBitMask.cpp.  The
two-bit-per-node `NodeFlagsVector` is modelled as the two predicates
`allocated` and `startBit`; slab indices are `unsigned short` in C, and
every scanning loop below carries a fuel argument bounding its iteration
count (the C loops are bounded by the 16-bit index space; the fuel
`numNodes + 1` covers every state in which no flag beyond the slab's node
count is set, which the mutators preserve). -/

structure SlabState where
  isSingleArray : Bool
  firstUnused : Nat
  usedBegin : Nat
  usedEnd : Nat
  numNodes : Nat
  allocated : Nat → Bool
  startBit : Nat → Bool

def markNodeAllocated (s : SlabState) (i : Nat) : SlabState :=
  { s with allocated := fun j => if j = i then true else s.allocated j }

def markNodeFree (s : SlabState) (i : Nat) : SlabState :=
  { s with allocated := fun j => if j = i then false else s.allocated j }

def setStartBit (s : SlabState) (i : Nat) : SlabState :=
  { s with startBit := fun j => if j = i then true else s.startBit j }

def clearStartBit (s : SlabState) (i : Nat) : SlabState :=
  { s with startBit := fun j => if j = i then false else s.startBit j }

/-- `PoolSlab::create`: a fresh slab with all flags clear and all cursors
zero. -/
def slabCreate (numNodes : Nat) : SlabState :=
  { isSingleArray := false
    firstUnused := 0
    usedBegin := 0
    usedEnd := 0
    numNodes := numNodes
    allocated := fun _ => false
    startBit := fun _ => false }

/-- `PoolSlab::assertOkay`: `FirstUnused <= UsedEnd`, and each of
`UsedEnd` and `FirstUnused` is the slab size or an unallocated node. -/
def slabOkay (s : SlabState) : Bool :=
  decide (s.firstUnused ≤ s.usedEnd) &&
  (decide (s.usedEnd = s.numNodes) || !s.allocated s.usedEnd) &&
  (decide (s.firstUnused = s.numNodes) || !s.allocated s.firstUnused)

/-- The `do { ++FU; } while ((FU != SlabSize) && isNodeAllocated(FU));`
advance in `allocateSingle`, from its first incremented value. -/
def scanUnusedLoop (s : SlabState) (fuel i : Nat) : Nat :=
  match fuel with
  | 0 => i
  | fuel + 1 =>
    if i ≠ s.numNodes ∧ s.allocated i then scanUnusedLoop s fuel (i + 1)
    else i

/-- `PoolSlab::allocateSingle`: take the node at `UsedEnd` if the slab
still has virgin space, else take `FirstUnused` and advance it; `none`
models the C return value `-1`. -/
def allocateSingle (s : SlabState) : Option Nat × SlabState :=
  if s.isSingleArray then (none, s)
  else if s.usedEnd < s.numNodes then
    let ue := s.usedEnd
    let s1 := setStartBit (markNodeAllocated s ue) ue
    let s2 :=
      if s1.firstUnused = ue then { s1 with firstUnused := ue + 1 } else s1
    (some ue, { s2 with usedEnd := ue + 1 })
  else if s.firstUnused < s.numNodes then
    let idx := s.firstUnused
    let s1 := setStartBit (markNodeAllocated s idx) idx
    let fu := scanUnusedLoop s1 (s1.numNodes + 1) (idx + 1)
    (some idx, { s1 with firstUnused := fu })
  else (none, s)

/-- `markNodeAllocated` over the node range `[i, i+count)`. -/
def markAllocRange (s : SlabState) (i count : Nat) : SlabState :=
  match count with
  | 0 => s
  | c + 1 => markAllocRange (markNodeAllocated s i) (i + 1) c

/-- The scan
`for (LastUnused = Idx+1; LastUnused != Idx+Size && !allocated(LastUnused); ++LastUnused)`. -/
def scanFreeRunLoop (s : SlabState) (fuel last stop : Nat) : Nat :=
  match fuel with
  | 0 => last
  | fuel + 1 =>
    if last ≠ stop ∧ ¬ s.allocated last then
      scanFreeRunLoop s fuel (last + 1) stop
    else last

/-- The skip `while (Idx+Size <= SlabSize && allocated(Idx)) ++Idx;`. -/
def skipAllocatedLoop (s : SlabState) (size fuel idx : Nat) : Nat :=
  match fuel with
  | 0 => idx
  | fuel + 1 =>
    if idx + size ≤ s.numNodes ∧ s.allocated idx then
      skipAllocatedLoop s size fuel (idx + 1)
    else idx

/-- The `FirstUnused` rescan
`for (i = FirstUnused+Size; i < UsedEnd; ++i) if (!allocated(i)) break;`. -/
def fuScanLoop (s : SlabState) (fuel i : Nat) : Nat :=
  match fuel with
  | 0 => i
  | fuel + 1 =>
    if i < s.usedEnd then
      if ¬ s.allocated i then i else fuScanLoop s fuel (i + 1)
    else i

/-- The search loop of `allocateMultiple` over candidate start indices
beginning at `FirstUnused`. -/
def allocMultiLoop (s : SlabState) (size fuel idx : Nat) :
    Option Nat × SlabState :=
  match fuel with
  | 0 => (none, s)
  | fuel + 1 =>
    if idx + size ≤ s.numNodes then
      let lastUnused := scanFreeRunLoop s (s.numNodes + size + 1) (idx + 1)
        (idx + size)
      if lastUnused = idx + size then
        let s1 := markAllocRange (setStartBit s idx) idx size
        let s2 :=
          if idx = s1.firstUnused then
            let i := fuScanLoop s1 (s1.usedEnd + 1) (s1.firstUnused + size)
            { s1 with
                firstUnused := if s1.allocated i then s1.numNodes else i }
          else s1
        (some idx, s2)
      else
        allocMultiLoop s size fuel
          (skipAllocatedLoop s size (s.numNodes + 1) lastUnused)
    else (none, s)

/-- `PoolSlab::allocateMultiple(Size)`: extend past `UsedEnd` when there
is room at the end, else search from `FirstUnused`. -/
def allocateMultiple (s : SlabState) (size : Nat) : Option Nat × SlabState :=
  if s.isSingleArray then (none, s)
  else if s.usedEnd + size ≤ s.numNodes then
    let ue := s.usedEnd
    let s1 := markAllocRange (setStartBit s ue) ue size
    let s2 :=
      if s1.firstUnused = ue then
        { s1 with firstUnused := s1.firstUnused + size }
      else s1
    (some ue, { s2 with usedEnd := s2.usedEnd + size })
  else allocMultiLoop s size (s.numNodes + 1) s.firstUnused

/-- `PoolSlab::lastNodeAllocated(ScanIdx)`: the C scans the flag words for
the highest allocated node at or below `ScanIdx`, returning 0 when none
exists; the word-wise scan is translated as a direct downward scan. -/
def lastNodeAllocated (s : SlabState) : Nat → Nat
  | 0 => 0
  | i + 1 => if s.allocated (i + 1) then i + 1 else lastNodeAllocated s i

/-- The freeing scan
`while (i != UE && !startBit(i) && allocated(i)) { markNodeFree(i); ++i }`,
returning the mutated slab and the final index. -/
def freeScanLoop (s : SlabState) (fuel i ue : Nat) : SlabState × Nat :=
  match fuel with
  | 0 => (s, i)
  | fuel + 1 =>
    if i ≠ ue ∧ ¬ s.startBit i ∧ s.allocated i then
      freeScanLoop (markNodeFree s i) fuel (i + 1) ue
    else (s, i)

/-- `PoolSlab::freeElement(ElementIdx)`: free the run starting at
`ElementIdx` and update the cursors (the C `assert` statements are
modelled as no-ops; `slabOkay` reifies `assertOkay`). -/
def freeElement (s : SlabState) (elementIdx : Nat) : SlabState :=
  if ¬ s.allocated elementIdx then s
  else
    let s1 := markNodeFree
      (clearStartBit (markNodeFree s elementIdx) elementIdx) elementIdx
    let ue := s1.usedEnd
    let sp := freeScanLoop s1 (s1.numNodes + 1) (elementIdx + 1) ue
    let s2 := sp.1
    let endIdx := sp.2
    let s3 :=
      if elementIdx < s2.firstUnused then
        { s2 with firstUnused := elementIdx }
      else s2
    let s4 :=
      if elementIdx = s3.usedBegin then { s3 with usedBegin := endIdx }
      else s3
    if endIdx = ue then
      if s4.usedBegin = ue then
        { s4 with firstUnused := 0, usedBegin := 0, usedEnd := 0 }
      else if s4.firstUnused = elementIdx then
        { s4 with firstUnused := elementIdx, usedEnd := elementIdx }
      else { s4 with usedEnd := lastNodeAllocated s4 elementIdx }
    else s4

/-! ### Claim C5: the failing run

A 10-node slab, five `allocateSingle` calls (allocating nodes 0..4), then
`freeElement(2)` and `freeElement(4)`. -/

def slabDemo5 : SlabState :=
  (allocateSingle (allocateSingle (allocateSingle (allocateSingle
    (allocateSingle (slabCreate 10)).2).2).2).2).2

def slabDemoB : SlabState := freeElement slabDemo5 2

def slabDemoC : SlabState := freeElement slabDemoB 4

/-- Claim C5 evaluated at the failing input: the invariant (the code's own
`assertOkay`) holds through slab creation, five single allocations and the
first free, but `freeElement(4)` then sets `UsedEnd` to
`lastNodeAllocated(4) = 3`, the index of the still-allocated node 3 rather
than one past it, violating `assertOkay`'s second assertion. -/
theorem freeElement_breaks_assertOkay :
    slabOkay (slabCreate 10) = true ∧
    slabOkay slabDemo5 = true ∧
    slabOkay slabDemoB = true ∧
    slabOkay slabDemoC = false ∧
    slabDemoC.usedEnd = 3 ∧
    slabDemoC.allocated 3 = true ∧
    slabDemoC.numNodes = 10 := by decide

/-! ## Baggy-bounds engine (claim C4)

Translated from BaggyBoundsCheck.cpp.  The baggy runtime is 64-bit
(`uintptr_t`); `SLOT_SIZE = 4` is the slot shift.  The shadow table is a
byte map indexed by `addr >> SLOT_SIZE`. -/

def SLOT_SIZE : Nat := 4

/-- The size-class loop `while ((unsigned)(1 << size) < NumBytes) size++;`
appearing identically in `__sc_bb_src_poolalloc` and
`__internal_register`; the fuel 64 bounds the iteration count (the loop is
well defined in C for `NumBytes ≤ 2^30`, where at most 31 iterations
run). -/
def sizeClassLoop (numBytes : Nat) : Nat → Nat → Nat
  | 0, size => size
  | fuel + 1, size =>
    if 2 ^ size < numBytes then sizeClassLoop numBytes fuel (size + 1)
    else size

/-- The full size-class computation: smallest `size` with
`2^size >= NumBytes`, then clamped up to `SLOT_SIZE`. -/
def sizeClassFor (numBytes : Nat) : Nat :=
  let size := sizeClassLoop numBytes 64 0
  if size < SLOT_SIZE then SLOT_SIZE else size

/-- Modelled from the spec: `posix_memalign(&p, align, align)` (an OS
allocation primitive outside the source tree) returns an `align`-aligned
block; `c` is a call counter distinguishing successive allocations. -/
structure Memalign where
  block : Nat → Nat → Nat
  aligned : ∀ a c, block a c % a = 0

/-- `__sc_bb_src_poolalloc(Pool, NumBytes, ...)`: compute the size class,
clamp to `SLOT_SIZE`, and obtain a `2^size`-aligned block of `2^size`
bytes from `posix_memalign`.  Returns the block pointer and the physical
block size. -/
def sc_bb_src_poolalloc (ma : Memalign) (c numBytes : Nat) : Nat × Nat :=
  let size := sizeClassFor numBytes
  (ma.block (2 ^ size) c, 2 ^ size)

/-- The baggy shadow table (`__baggybounds_size_table_begin`), zero
initialised by the kernel. -/
structure BBState where
  table : Nat → Nat

/-- `__internal_register(allocaptr, NumBytes)`: recompute the size class,
check that `allocaptr` is `2^size`-aligned
(`Source & ~((1<<size)-1) == Source`, the 64-bit complement mask being
`2^64 - 2^size`; on failure the C asserts, modelled as `none`), and
`memset` the `2^(size - SLOT_SIZE)` shadow slots starting at
`Source >> SLOT_SIZE` to `size`. -/
def internal_register (st : BBState) (allocaptr numBytes : Nat) :
    Option BBState :=
  let size := sizeClassFor numBytes
  if allocaptr &&& (2 ^ 64 - 2 ^ size) = allocaptr then
    let index := allocaptr >>> SLOT_SIZE
    let range := 2 ^ (size - SLOT_SIZE)
    some { table := fun a =>
      if index ≤ a ∧ a < index + range then size else st.table a }
  else none

theorem sizeClassLoop_start_le (numBytes : Nat) :
    ∀ fuel size, size ≤ sizeClassLoop numBytes fuel size := by
  intro fuel
  induction fuel with
  | zero => intro size; simp [sizeClassLoop]
  | succ f ih =>
    intro size
    simp only [sizeClassLoop]
    by_cases h : 2 ^ size < numBytes
    · rw [if_pos h]
      calc size ≤ size + 1 := by omega
        _ ≤ sizeClassLoop numBytes f (size + 1) := ih (size + 1)
    · rw [if_neg h]

theorem sizeClassLoop_ge (numBytes : Nat) :
    ∀ fuel size, numBytes ≤ 2 ^ (size + fuel) →
      numBytes ≤ 2 ^ sizeClassLoop numBytes fuel size := by
  intro fuel
  induction fuel with
  | zero => intro size h; simpa [sizeClassLoop] using h
  | succ f ih =>
    intro size h
    simp only [sizeClassLoop]
    by_cases hlt : 2 ^ size < numBytes
    · rw [if_pos hlt]
      exact ih (size + 1) (by rw [show size + 1 + f = size + (f + 1) by omega]; exact h)
    · rw [if_neg hlt]; omega

theorem sizeClassLoop_min (numBytes : Nat) :
    ∀ fuel size t, size ≤ t → numBytes ≤ 2 ^ t →
      sizeClassLoop numBytes fuel size ≤ t := by
  intro fuel
  induction fuel with
  | zero => intro size t hs _; simpa [sizeClassLoop] using hs
  | succ f ih =>
    intro size t hs ht
    simp only [sizeClassLoop]
    by_cases hlt : 2 ^ size < numBytes
    · rw [if_pos hlt]
      apply ih
      · rcases Nat.lt_or_ge size t with h | h
        · omega
        · have heq : size = t := by omega
          subst heq
          omega
      · exact ht
    · rw [if_neg hlt]; exact hs

/-- Claim C4: for a request `n ≥ 1` (and `n ≤ 2^30`, within which the C
`int` shift arithmetic is well defined), the baggy engine's allocation
path chooses the smallest size class `s ≥ SLOT_SIZE = 4` with `2^s ≥ n`,
returns a `2^s`-aligned block of exactly `2^s` bytes, and the registration
step writes `s` into all `2^(s-4)` shadow slots covering the block,
leaving other slots untouched. -/
theorem bb_alloc_spec (ma : Memalign) (st : BBState) (c n : Nat)
    (hn : 1 ≤ n) (hn30 : n ≤ 2 ^ 30)
    (hp64 : (sc_bb_src_poolalloc ma c n).1 < 2 ^ 64) :
    (SLOT_SIZE ≤ sizeClassFor n ∧ n ≤ 2 ^ sizeClassFor n ∧
      ∀ t, SLOT_SIZE ≤ t → n ≤ 2 ^ t → sizeClassFor n ≤ t) ∧
    (sc_bb_src_poolalloc ma c n).1 % 2 ^ sizeClassFor n = 0 ∧
    (sc_bb_src_poolalloc ma c n).2 = 2 ^ sizeClassFor n ∧
    ∃ st1,
      internal_register st (sc_bb_src_poolalloc ma c n).1 n = some st1 ∧
      (∀ j, j < 2 ^ (sizeClassFor n - SLOT_SIZE) →
        st1.table ((sc_bb_src_poolalloc ma c n).1 / 2 ^ SLOT_SIZE + j) =
          sizeClassFor n) ∧
      (∀ a, a < (sc_bb_src_poolalloc ma c n).1 / 2 ^ SLOT_SIZE ∨
          (sc_bb_src_poolalloc ma c n).1 / 2 ^ SLOT_SIZE +
            2 ^ (sizeClassFor n - SLOT_SIZE) ≤ a →
        st1.table a = st.table a) := by
  have hle : sizeClassFor n ≤ 30 := by
    unfold sizeClassFor
    have hloop : sizeClassLoop n 64 0 ≤ 30 :=
      sizeClassLoop_min n 64 0 30 (by omega) hn30
    simp only [SLOT_SIZE]
    split <;> omega
  have hclass : SLOT_SIZE ≤ sizeClassFor n ∧ n ≤ 2 ^ sizeClassFor n ∧
      ∀ t, SLOT_SIZE ≤ t → n ≤ 2 ^ t → sizeClassFor n ≤ t := by
    unfold sizeClassFor
    have hge : n ≤ 2 ^ sizeClassLoop n 64 0 :=
      sizeClassLoop_ge n 64 0 (le_trans hn30 (Nat.pow_le_pow_right (by omega) (by omega)))
    refine ⟨?_, ?_, ?_⟩
    · simp only [SLOT_SIZE]
      by_cases h : sizeClassLoop n 64 0 < 4 <;> simp [h] <;> omega
    · by_cases h : sizeClassLoop n 64 0 < SLOT_SIZE
      · rw [if_pos h]
        calc n ≤ 2 ^ sizeClassLoop n 64 0 := hge
          _ ≤ 2 ^ SLOT_SIZE := Nat.pow_le_pow_right (by omega) (by omega)
      · rw [if_neg h]; exact hge
    · intro t h4 hnt
      have hmin : sizeClassLoop n 64 0 ≤ t :=
        sizeClassLoop_min n 64 0 t (by omega) hnt
      by_cases h : sizeClassLoop n 64 0 < SLOT_SIZE
      · rw [if_pos h]; exact h4
      · rw [if_neg h]; exact hmin
  have halignp : (sc_bb_src_poolalloc ma c n).1 % 2 ^ sizeClassFor n = 0 := by
    unfold sc_bb_src_poolalloc
    exact ma.aligned (2 ^ sizeClassFor n) c
  refine ⟨hclass, halignp, rfl, ?_⟩
  have hmask : (sc_bb_src_poolalloc ma c n).1 &&&
      (2 ^ 64 - 2 ^ sizeClassFor n) = (sc_bb_src_poolalloc ma c n).1 :=
    (land_high_mask_eq_self_iff 64 (sizeClassFor n)
      (sc_bb_src_poolalloc ma c n).1 (by omega) hp64).mpr halignp
  have hsr : (sc_bb_src_poolalloc ma c n).1 >>> SLOT_SIZE =
      (sc_bb_src_poolalloc ma c n).1 / 2 ^ SLOT_SIZE :=
    Nat.shiftRight_eq_div_pow _ _
  have hreg : internal_register st (sc_bb_src_poolalloc ma c n).1 n =
      some { table := fun a =>
        if (sc_bb_src_poolalloc ma c n).1 >>> SLOT_SIZE ≤ a ∧
            a < (sc_bb_src_poolalloc ma c n).1 >>> SLOT_SIZE +
              2 ^ (sizeClassFor n - SLOT_SIZE) then sizeClassFor n
        else st.table a } := by
    unfold internal_register
    rw [if_pos hmask]
  refine ⟨_, hreg, ?_, ?_⟩
  · intro j hj
    dsimp only
    rw [hsr]
    split
    · rfl
    · next h => exact absurd ⟨Nat.le_add_right _ _, by omega⟩ h
  · intro a ha
    dsimp only
    rw [hsr]
    split
    · next h => omega
    · rfl

/-- A concrete `posix_memalign` model for the C4 witness: return the
alignment itself (always aligned). -/
def maDemo : Memalign :=
  { block := fun a _ => a
    aligned := fun a _ => Nat.mod_self a }

/-- Witness for C4: `alloc(5)` uses size class 4 (physical size 16), the
returned 16-aligned pointer is 16, and after registration the single
covering shadow slot `table[p >> 4]` holds 4 (the spec's scenario S4). -/
theorem bb_alloc_spec_witness :
    sizeClassFor 5 = 4 ∧
    (sc_bb_src_poolalloc maDemo 0 5).1 = 16 ∧
    (sc_bb_src_poolalloc maDemo 0 5).2 = 16 ∧
    (internal_register ⟨fun _ => 0⟩ (sc_bb_src_poolalloc maDemo 0 5).1 5).map
      (fun st1 => st1.table ((sc_bb_src_poolalloc maDemo 0 5).1 / 2 ^ 4)) =
      some 4 := by
  have h := bb_alloc_spec maDemo ⟨fun _ => 0⟩ 0 5 (by decide) (by decide)
    (by decide)
  refine ⟨by decide, by decide, by decide, ?_⟩
  rcases h.2.2.2 with ⟨st1, heq, htab, _⟩
  rw [heq]
  have h4 : sizeClassFor 5 = 4 := by decide
  have ht := htab 0 (by rw [h4]; decide)
  rw [Nat.add_zero] at ht
  rw [show SLOT_SIZE = 4 from rfl] at ht
  show some (st1.table ((sc_bb_src_poolalloc maDemo 0 5).1 / 2 ^ 4)) = some 4
  rw [ht, h4]

/-! ## poolalloc / poolfree / poolrealloc (claim C8)

Translated from PoolAllocatorBitMask.cpp.  For `poolrealloc` the relevant
observable state is the byte memory, the pool's object splay and the
allocation source; the pool state bundles them. -/

/-- Pool-engine state for the allocation primitives: the byte memory, the
pool's object splay, and the allocation source.  `allocSeq`/`allocCount`
are the oracle for addresses handed out by the slab machinery. -/
structure AllocState where
  mem : Nat → Nat
  objects : IntervalMap
  allocSeq : Nat → Nat
  allocCount : Nat

/-- Modelled from the spec (in part): `poolalloc(Pool, NumBytes)`.  The
address computation (slab search, `RemapObject` shadow mapping; the page
manager is not in the source tree) is abstracted as the oracle
`allocSeq`; the size normalisation `if (NumBytes == 0) NumBytes = 1;` and
the registration `adl_splay_insert(&Pool->Objects, retAddress, NumBytes,
...)` are translated from poolalloc.  Memory contents are untouched. -/
def poolalloc (st : AllocState) (numBytes : Nat) : Nat × AllocState :=
  (st.allocSeq st.allocCount,
    { st with
        allocCount := st.allocCount + 1
        objects := insertIv st.objects (st.allocSeq st.allocCount)
          (if numBytes = 0 then 1 else numBytes) 0 })

/-- `poolfree(Pool, Node)`: the record keyed by `Node` is removed from the
pool's object splay (`adl_splay_delete(&Pool->Objects, Node)`); the debug
metadata update, shadow-page protection and slab bookkeeping do not change
memory contents or the object splay and are omitted. -/
def poolfree (st : AllocState) (node : Nat) : AllocState :=
  { st with objects := deleteIv st.objects node }

/-- `memcpy(New, Node, NumBytes)` on the byte memory (regions produced by
the allocator do not overlap, so the simultaneous copy is exact). -/
def memcpyBytes (m : Nat → Nat) (dst src n : Nat) : Nat → Nat :=
  fun a => if dst ≤ a ∧ a < dst + n then m (src + (a - dst)) else m a

/-- `poolrealloc(Pool, Node, NumBytes)`: NULL `Node` (modelled as the C
null pointer 0) delegates to `poolalloc`; `NumBytes == 0` frees and
returns NULL; otherwise allocate, `memcpy` exactly `NumBytes` (the new
size) from the old object, free the old object and return the new
pointer. -/
def poolrealloc (st : AllocState) (node numBytes : Nat) :
    Nat × AllocState :=
  if node = 0 then poolalloc st numBytes
  else if numBytes = 0 then (0, poolfree st node)
  else
    let pa := poolalloc st numBytes
    let st2 := { pa.2 with mem := memcpyBytes pa.2.mem pa.1 node numBytes }
    (pa.1, poolfree st2 node)

/-- Claim C8: `poolrealloc(P, NULL, n)` behaves exactly as
`poolalloc(P, n)`; `poolrealloc(P, p, 0)` frees `p` and returns NULL; any
other call allocates a new object of `n` bytes, copies exactly `n` bytes
(the new size) from the old object, frees the old object, and returns the
new pointer — so bytes outside the copied range come from the new block,
and a shrinking realloc preserves only the first `n` bytes. -/
theorem poolrealloc_spec (st : AllocState) (node n : Nat) :
    poolrealloc st 0 n = poolalloc st n ∧
    (node ≠ 0 → poolrealloc st node 0 = (0, poolfree st node)) ∧
    (node ≠ 0 → n ≠ 0 →
      (poolrealloc st node n).1 = (poolalloc st n).1 ∧
      (∀ i, i < n →
        (poolrealloc st node n).2.mem ((poolalloc st n).1 + i) =
          st.mem (node + i)) ∧
      (∀ a, a < (poolalloc st n).1 ∨ (poolalloc st n).1 + n ≤ a →
        (poolrealloc st node n).2.mem a = st.mem a) ∧
      (poolrealloc st node n).2.objects =
        deleteIv (insertIv st.objects (poolalloc st n).1 n 0) node) := by
  refine ⟨by simp [poolrealloc], ?_, ?_⟩
  · intro hnode
    simp [poolrealloc, hnode]
  · intro hnode hn
    simp only [poolrealloc, if_neg hnode, if_neg hn]
    refine ⟨trivial, ?_, ?_, ?_⟩
    · intro i hi
      simp only [poolalloc, poolfree, memcpyBytes]
      rw [if_pos ⟨Nat.le_add_right _ _, by omega⟩]
      congr 1
      omega
    · intro a ha
      simp only [poolalloc, poolfree, memcpyBytes] at ha ⊢
      rw [if_neg (by omega)]
    · simp only [poolalloc, poolfree, if_neg hn]

/-- A concrete state for the C8 witness: identity byte memory, empty
splay, fresh addresses `1000, 1016, ...`. -/
def allocDemoState : AllocState :=
  { mem := fun a => a
    objects := []
    allocSeq := fun c => 1000 + 16 * c
    allocCount := 0 }

/-- Witness for C8: `realloc(NULL, 3)` equals `alloc(3)`;
`realloc(7, 0)` frees 7 and returns NULL; `realloc(7, 3)` returns the
fresh address 1000 whose second byte holds the old object's second byte
(`allocDemoState.mem 8 = 8`). -/
theorem poolrealloc_spec_witness :
    poolrealloc allocDemoState 0 3 = poolalloc allocDemoState 3 ∧
    poolrealloc allocDemoState 7 0 = (0, poolfree allocDemoState 7) ∧
    (poolrealloc allocDemoState 7 3).1 = 1000 ∧
    (poolrealloc allocDemoState 7 3).2.mem (1000 + 1) =
      allocDemoState.mem (7 + 1) := by
  have h := poolrealloc_spec allocDemoState 7 3
  refine ⟨h.1, h.2.1 (by decide), ?_, ?_⟩
  · rw [(h.2.2 (by decide) (by decide)).1]
    rfl
  · have hmem := (h.2.2 (by decide) (by decide)).2.1 1 (by decide)
    rw [show (1000 : Nat) = (poolalloc allocDemoState 3).1 from rfl]
    exact hmem

end SafeCode
